import Mathlib

set_option maxRecDepth 10000

/-!
Shallow embedding of the `aml` library (src/aml/src/lib.rs): a small dense
f32 GEMM library with four kernels (naive, tiled, parallel tiled, vectorized
tiled).  f32 values are modelled exactly as rationals; the mutable output
buffer `Vec<f32>` is a `List ℚ` threaded through the loop nests as explicit
state; Rust's `assert!` failures are modelled as `Except.error` values
classified by the spec's error taxonomy.  Loops become `List.foldl` over the
same index lists the Rust `for` loops traverse (`stepBy` models
`(0..len).step_by(step)`), and every slice read or write `v[i]` becomes
`List.getD i 0` / `List.set i`; within validated calls every such index is
in bounds (proved below), so the defaulting never fires.
-/

namespace Aml

/-- Error taxonomy of the library's assertion failures (spec section 7):
construction errors are ShapeError, kernel precondition errors are
UnsupportedError (a transpose flag), IncompatibilityError (inner dimensions)
or SizeError (output length). -/
inductive GemmError where
  | ShapeError
  | UnsupportedError
  | IncompatibilityError
  | SizeError
deriving DecidableEq

/-- Mirror of `pub struct F32Tensor` (lib.rs): a shape vector and a borrowed
read-only row-major data slice. -/
structure F32Tensor where
  shape : List Nat
  data : List ℚ
deriving DecidableEq

/-- Mirror of `F32Tensor::new` (lib.rs lines 20-40): asserts rank exactly 2,
both dimensions divisible by 16, and data length equal to the fold-product of
the shape; each assertion failure is a ShapeError.  On success the tensor
holds exactly the given shape and data. -/
def F32Tensor.new (data : List ℚ) (shape : List Nat) : Except GemmError F32Tensor :=
  if ¬ shape.length = 2 then .error .ShapeError
  else if ¬ shape.getD 0 0 % 16 = 0 then .error .ShapeError
  else if ¬ shape.getD 1 0 % 16 = 0 then .error .ShapeError
  else if ¬ data.length = shape.foldl (fun acc next => acc * next) 1 then .error .ShapeError
  else .ok { shape := shape, data := data }

/-- The index list of Rust's `(0..len).step_by(step)`: 0, step, 2*step, ...
strictly below len (⌈len/step⌉ values). -/
def stepBy (len step : Nat) : List Nat :=
  (List.range ((len + step - 1) / step)).map (fun t => t * step)

/-- The naive triple loop of `sgemm` (lib.rs lines 81-87): for each row i,
column j and shared index k, `c[i*p+j] += a[i*n+k] * b[k*p+j]` (accumulating
into the existing contents of c). -/
def sgemm_compute (adata bdata : List ℚ) (m n p : Nat) (c : List ℚ) : List ℚ :=
  (List.range m).foldl (fun c i =>
    (List.range p).foldl (fun c j =>
      (List.range n).foldl (fun c k =>
        c.set (i * p + j)
          (c.getD (i * p + j) 0 + adata.getD (i * n + k) 0 * bdata.getD (k * p + j) 0)) c) c) c

/-- Mirror of `sgemm` (lib.rs lines 61-88): asserts no transpose flag, inner
dimension compatibility and output buffer size, then runs the naive
accumulating triple loop. -/
def sgemm (a : F32Tensor) (a_t : Bool) (b : F32Tensor) (b_t : Bool) (c : List ℚ) :
    Except GemmError (List ℚ) :=
  if ¬ (!a_t && !b_t) then .error .UnsupportedError
  else if ¬ a.shape.getD 1 0 = b.shape.getD 0 0 then .error .IncompatibilityError
  else if ¬ a.shape.getD 0 0 * b.shape.getD 1 0 = c.length then .error .SizeError
  else
    let m := a.shape.getD 0 0
    let n := a.shape.getD 1 0
    let p := b.shape.getD 1 0
    .ok (sgemm_compute a.data b.data m n p c)

/-- The blocked loop nest of `sgemm_tiled` (lib.rs lines 112-123): for
col_block stepping by 16 over the output columns, each row, each tile
stepping by 16 over the shared dimension, each tile_row and each el below 16,
plain assignment `c[row*p+col_block+el] = a[row*n+tile+tile_row] *
b[tile*p+tile_row*p+col_block+el]` (no accumulation). -/
def sgemm_tiled_compute (adata bdata : List ℚ) (m n p : Nat) (c : List ℚ) : List ℚ :=
  let block_size := 16
  (stepBy p block_size).foldl (fun c col_block =>
    (List.range m).foldl (fun c row =>
      (stepBy n block_size).foldl (fun c tile =>
        (List.range block_size).foldl (fun c tile_row =>
          (List.range block_size).foldl (fun c el =>
            c.set (row * p + col_block + el)
              (adata.getD (row * n + tile + tile_row) 0 *
                bdata.getD (tile * p + tile_row * p + col_block + el) 0)) c) c) c) c) c

/-- Mirror of `sgemm_tiled` (lib.rs lines 90-124): same assertions as
`sgemm`, then the blocked loop nest. -/
def sgemm_tiled (a : F32Tensor) (a_t : Bool) (b : F32Tensor) (b_t : Bool) (c : List ℚ) :
    Except GemmError (List ℚ) :=
  if ¬ (!a_t && !b_t) then .error .UnsupportedError
  else if ¬ a.shape.getD 1 0 = b.shape.getD 0 0 then .error .IncompatibilityError
  else if ¬ a.shape.getD 0 0 * b.shape.getD 1 0 = c.length then .error .SizeError
  else
    let m := a.shape.getD 0 0
    let n := a.shape.getD 1 0
    let p := b.shape.getD 1 0
    .ok (sgemm_tiled_compute a.data b.data m n p c)

/-- The loop nest of `sgemm_tiled_par` (lib.rs lines 150-169): the rayon
`for_each` over col_block tasks is embedded as an in-order fold over the same
index list; each task runs the row/tile/tile_row/el nest of the tiled kernel,
writing through the shared output buffer (the raw-pointer `F32Buffer::set`
is a plain element assignment). -/
def sgemm_tiled_par_compute (adata bdata : List ℚ) (m n p : Nat) (c : List ℚ) : List ℚ :=
  let block_size := 16
  (stepBy p block_size).foldl (fun c col_block =>
    (List.range m).foldl (fun c row =>
      (stepBy n block_size).foldl (fun c tile =>
        (List.range block_size).foldl (fun c tile_row =>
          (List.range block_size).foldl (fun c el =>
            c.set (row * p + col_block + el)
              (adata.getD (row * n + tile + tile_row) 0 *
                bdata.getD (tile * p + tile_row * p + col_block + el) 0)) c) c) c) c) c

/-- Mirror of `sgemm_tiled_par` (lib.rs lines 126-170): same assertions, then
the per-column-block tasks. -/
def sgemm_tiled_par (a : F32Tensor) (a_t : Bool) (b : F32Tensor) (b_t : Bool) (c : List ℚ) :
    Except GemmError (List ℚ) :=
  if ¬ (!a_t && !b_t) then .error .UnsupportedError
  else if ¬ a.shape.getD 1 0 = b.shape.getD 0 0 then .error .IncompatibilityError
  else if ¬ a.shape.getD 0 0 * b.shape.getD 1 0 = c.length then .error .SizeError
  else
    let m := a.shape.getD 0 0
    let n := a.shape.getD 1 0
    let p := b.shape.getD 1 0
    .ok (sgemm_tiled_par_compute a.data b.data m n p c)

/-- Model of `_mm256_loadu_ps`: the 8 consecutive f32 values starting at the
given offset (a vector is modelled as its lane-indexed values). -/
def mm256_loadu_ps (data : List ℚ) (ptr : Nat) : Nat → ℚ := fun i => data.getD (ptr + i) 0

/-- Model of `_mm256_broadcast_ss`: one scalar in every lane. -/
def mm256_broadcast_ss (x : ℚ) : Nat → ℚ := fun _ => x

/-- Model of `_mm256_dp_ps` per 128-bit half: the products of the lane pairs
selected by the high nibble of imm8 are summed, and the sum is placed in the
lanes selected by the low nibble, 0 elsewhere.  lib.rs calls it with
imm8 = 0, which makes the result the zero vector. -/
def mm256_dp_ps (x y : Nat → ℚ) (imm8 : Nat) : Nat → ℚ := fun i =>
  if imm8.testBit (i % 4) then
    ∑ jj ∈ Finset.range 4,
      (if imm8.testBit (4 + jj) then x (i / 4 * 4 + jj) * y (i / 4 * 4 + jj) else 0)
  else 0

/-- Model of `_mm256_storeu_ps`: write the 8 lanes to c[ptr..ptr+8). -/
def mm256_storeu_ps (c : List ℚ) (ptr : Nat) (v : Nat → ℚ) : List ℚ :=
  (List.range 8).foldl (fun c i => c.set (ptr + i) (v i)) c

/-- The avx branch of `sgemm_tiled_simd` (lib.rs lines 196-219): per
(col_block, row, tile, tile_col), two unaligned 8-lane loads from b, a
broadcast of one a element, two dot products with imm8 = 0, and two 8-lane
stores into the output row. -/
def sgemm_tiled_simd_avx_compute (adata bdata : List ℚ) (m n p : Nat) (c : List ℚ) : List ℚ :=
  let block_size := 16
  (stepBy p block_size).foldl (fun c col_block =>
    (List.range m).foldl (fun c row =>
      (stepBy n block_size).foldl (fun c tile =>
        (List.range block_size).foldl (fun c tile_col =>
          let b_vector_1 := mm256_loadu_ps bdata (tile * p + tile_col * p + col_block)
          let b_vector_2 := mm256_loadu_ps bdata (tile * p + tile_col * p + col_block + 8)
          let a_values := mm256_broadcast_ss (adata.getD (row * n + tile + tile_col) 0)
          let res_1 := mm256_dp_ps a_values b_vector_1 0
          let res_2 := mm256_dp_ps a_values b_vector_2 0
          mm256_storeu_ps (mm256_storeu_ps c (row * p + col_block) res_1)
            (row * p + col_block + 8) res_2) c) c) c) c

/-- The scalar fallback branch of `sgemm_tiled_simd` (lib.rs lines 222-233),
a textual copy of the tiled loop nest. -/
def sgemm_tiled_simd_scalar_compute (adata bdata : List ℚ) (m n p : Nat) (c : List ℚ) : List ℚ :=
  let block_size := 16
  (stepBy p block_size).foldl (fun c col_block =>
    (List.range m).foldl (fun c row =>
      (stepBy n block_size).foldl (fun c tile =>
        (List.range block_size).foldl (fun c tile_row =>
          (List.range block_size).foldl (fun c el =>
            c.set (row * p + col_block + el)
              (adata.getD (row * n + tile + tile_row) 0 *
                bdata.getD (tile * p + tile_row * p + col_block + el) 0)) c) c) c) c) c

/-- Mirror of `sgemm_tiled_simd` (lib.rs lines 172-235): the runtime
`is_x86_feature_detected!("avx")` result is an explicit Bool parameter;
after the same assertions as `sgemm`, the avx branch runs when the flag
holds, else the scalar fallback.  The one-line `println!` notices are pure
I/O and are not modelled. -/
def sgemm_tiled_simd (avx : Bool) (a : F32Tensor) (a_t : Bool) (b : F32Tensor) (b_t : Bool)
    (c : List ℚ) : Except GemmError (List ℚ) :=
  if ¬ (!a_t && !b_t) then .error .UnsupportedError
  else if ¬ a.shape.getD 1 0 = b.shape.getD 0 0 then .error .IncompatibilityError
  else if ¬ a.shape.getD 0 0 * b.shape.getD 1 0 = c.length then .error .SizeError
  else
    let m := a.shape.getD 0 0
    let n := a.shape.getD 1 0
    let p := b.shape.getD 1 0
    if avx then .ok (sgemm_tiled_simd_avx_compute a.data b.data m n p c)
    else .ok (sgemm_tiled_simd_scalar_compute a.data b.data m n p c)

/-- Test fixture: the 16×16 all-ones tensor of spec section 8, scenario 1. -/
def ones16 : F32Tensor := { shape := [16, 16], data := List.replicate 256 1 }

/-- Test fixture: a zero-initialized 256-cell output buffer. -/
def zeros256 : List ℚ := List.replicate 256 0

/-- Test fixture: the 16×32 all-ones tensor of spec section 8, scenario 2
(two shared-dimension blocks). -/
def ones16x32 : F32Tensor := { shape := [16, 32], data := List.replicate 512 1 }

/-- Test fixture: the 32×16 all-ones tensor of spec section 8, scenario 2. -/
def ones32x16 : F32Tensor := { shape := [32, 16], data := List.replicate 512 1 }

/-- The multi-block tiled output the spec's section 4.3 caveat predicts:
the partial product contributed by the final shared-dimension block alone,
entry (i, j) = sum over the last 16 shared indices of A[i,k]*B[k,j].  This
definition follows the spec's words (so the code's actual tiled output can
be compared against it); it is not code of the repository. -/
def lastBlockPartialProduct (adata bdata : List ℚ) (m n p : Nat) : List ℚ :=
  (List.range (m * p)).map (fun q =>
    ∑ k ∈ Finset.range 16,
      adata.getD (q / p * n + (n - 16 + k)) 0 * bdata.getD ((n - 16 + k) * p + q % p) 0)

/-! Basic facts about `List.set` / `List.getD` used throughout: an update is
visible exactly at its own in-bounds index. -/

/-- Reading a just-written cell (or any other cell) of an updated buffer. -/
theorem getD_set (c : List ℚ) (i j : Nat) (v : ℚ) :
    (c.set i v).getD j 0 = if j = i ∧ i < c.length then v else c.getD j 0 := by
  rcases eq_or_ne j i with h | h
  · subst h
    by_cases hl : j < c.length
    · simp [hl, List.getD_eq_getElem?_getD, List.getElem?_set_self', List.getElem?_eq_getElem hl]
    · rw [List.set_eq_of_length_le (le_of_not_lt hl)]
      simp [hl]
  · simp [h, List.getD_eq_getElem?_getD, List.getElem?_set_ne (fun hh => h hh.symm)]

/-- Folding any length-preserving update over a list preserves the buffer
length. -/
theorem foldl_length {α : Type} (l : List α) (f : List ℚ → α → List ℚ)
    (hf : ∀ c x, (f c x).length = c.length) (c : List ℚ) :
    (l.foldl f c).length = c.length := by
  induction l generalizing c with
  | nil => rfl
  | cons x xs ih => simpa [hf] using ih (f c x)

/-- Row-major flat index of an in-range (row, column) pair is in range. -/
theorem index_lt {i j m p : Nat} (hi : i < m) (hj : j < p) : i * p + j < m * p := by
  have h1 : i * p + j < (i + 1) * p := by rw [Nat.succ_mul]; omega
  have h2 : (i + 1) * p ≤ m * p := Nat.mul_le_mul_right p hi
  omega

/-- Row recovered from a row-major flat index. -/
theorem index_div {i j p : Nat} (hj : j < p) : (i * p + j) / p = i := by
  rw [Nat.mul_comm i p, Nat.mul_add_div (by omega : 0 < p), Nat.div_eq_of_lt hj]
  omega

/-- Column recovered from a row-major flat index. -/
theorem index_mod {i j p : Nat} (hj : j < p) : (i * p + j) % p = j := by
  rw [Nat.mul_comm i p, Nat.mul_add_mod]
  exact Nat.mod_eq_of_lt hj

/-! Characterization of the naive kernel's loop nest: the innermost k-loop
accumulates one sum into one cell, the j-loop sweeps one output row, the
i-loop sweeps the rows. -/

/-- The k-loop of `sgemm_compute`: repeatedly adding to one fixed in-bounds
cell accumulates the sum of all addends there and changes nothing else. -/
theorem acc_cell_getD (T q : Nat) (f : Nat → ℚ) (c : List ℚ) (q' : Nat) :
    ((List.range T).foldl (fun c k => c.set q (c.getD q 0 + f k)) c).getD q' 0 =
      if q' = q ∧ q < c.length then c.getD q 0 + ∑ k ∈ Finset.range T, f k
      else c.getD q' 0 := by
  induction T generalizing q' with
  | zero =>
    simp only [List.range_zero, List.foldl_nil, Finset.range_zero, Finset.sum_empty, add_zero]
    split
    · next h => rw [h.1]
    · rfl
  | succ T ih =>
    rw [List.range_succ, List.foldl_append, List.foldl_cons, List.foldl_nil]
    have hlen : ((List.range T).foldl (fun c k => c.set q (c.getD q 0 + f k)) c).length
        = c.length :=
      foldl_length _ _ (fun c x => by simp) c
    rw [getD_set, hlen, ih q, ih q', Finset.sum_range_succ]
    by_cases h1 : q' = q <;> by_cases h2 : q < c.length <;> (simp [h1, h2]; try ring)

/-- The j-loop of `sgemm_compute`: sweeping the k-accumulation across the
cells base..base+J-1 adds the completed sum into each of those cells and
changes nothing else. -/
theorem row_acc_getD (J base n : Nat) (g : Nat → Nat → ℚ) (c : List ℚ) (q : Nat) :
    ((List.range J).foldl
        (fun c j => (List.range n).foldl
          (fun c k => c.set (base + j) (c.getD (base + j) 0 + g j k)) c) c).getD q 0 =
      if base ≤ q ∧ q < base + J ∧ q < c.length
      then c.getD q 0 + ∑ k ∈ Finset.range n, g (q - base) k
      else c.getD q 0 := by
  induction J generalizing q with
  | zero =>
    simp only [List.range_zero, List.foldl_nil]
    rw [if_neg (by omega)]
  | succ J ih =>
    rw [List.range_succ, List.foldl_append, List.foldl_cons, List.foldl_nil]
    have hlen : ((List.range J).foldl (fun c j => (List.range n).foldl
        (fun c k => c.set (base + j) (c.getD (base + j) 0 + g j k)) c) c).length = c.length :=
      foldl_length _ _ (fun c x => foldl_length _ _ (fun c k => by simp) c) c
    rw [acc_cell_getD, hlen]
    by_cases hq : q = base + J
    · subst hq
      by_cases hl : base + J < c.length
      · rw [if_pos ⟨rfl, hl⟩, ih (base + J), if_neg (by omega),
          if_pos (show base ≤ base + J ∧ base + J < base + (J+1) ∧ base + J < c.length by omega)]
        simp
      · rw [if_neg (by tauto), ih (base + J), if_neg (by omega), if_neg (by omega)]
    · rw [if_neg (by tauto), ih q]
      have h : (base ≤ q ∧ q < base + J ∧ q < c.length) ↔
          (base ≤ q ∧ q < base + (J+1) ∧ q < c.length) := by omega
      simp only [h]

/-- Pointwise description of the naive kernel's compute phase: each cell
q < m*p of the (long enough) buffer receives its old value plus the
dot-product of row q/p of a with column q%p of b; all other cells are
untouched. -/
theorem sgemm_compute_getD (adata bdata : List ℚ) (m n p : Nat) (c : List ℚ) (q : Nat) :
    (sgemm_compute adata bdata m n p c).getD q 0 =
      if q < m * p ∧ q < c.length
      then c.getD q 0 +
        ∑ k ∈ Finset.range n, adata.getD (q / p * n + k) 0 * bdata.getD (k * p + q % p) 0
      else c.getD q 0 := by
  unfold sgemm_compute
  induction m generalizing q with
  | zero => simp
  | succ m ih =>
    rw [List.range_succ, List.foldl_append, List.foldl_cons, List.foldl_nil, Nat.succ_mul]
    have hlen : ((List.range m).foldl (fun c i => (List.range p).foldl
        (fun c j => (List.range n).foldl
          (fun c k => c.set (i * p + j)
            (c.getD (i * p + j) 0 + adata.getD (i * n + k) 0 * bdata.getD (k * p + j) 0)) c) c)
        c).length = c.length :=
      foldl_length _ _
        (fun c x => foldl_length _ _ (fun c j => foldl_length _ _ (fun c k => by simp) c) c) c
    rw [row_acc_getD, hlen]
    by_cases hl : q < c.length
    · by_cases h1 : q < m * p
      · rw [if_neg (by omega), ih q, if_pos ⟨h1, hl⟩, if_pos ⟨by omega, hl⟩]
      · by_cases h2 : q < m * p + p
        · rw [if_pos ⟨by omega, by omega, hl⟩, ih q, if_neg (by omega), if_pos ⟨h2, hl⟩]
          have hdiv : q / p = m := by
            rw [show q = m * p + (q - m * p) from by omega, index_div (by omega)]
          have hmod : q % p = q - m * p := by
            conv_lhs => rw [show q = m * p + (q - m * p) from by omega]
            rw [index_mod (by omega)]
          rw [hdiv, hmod]
        · rw [if_neg (by omega), ih q, if_neg (by omega), if_neg (by omega)]
    · rw [if_neg (by omega), ih q, if_neg (by omega), if_neg (by omega)]

/-! Characterization of the tiled loop nest.  The innermost el-loop writes a
16-wide block; the tile_row loop rewrites that same block 16 times, so only
tile_row = 15 survives; the tile loop rewrites it once more per tile, so
only the last tile survives; rows and column blocks partition the output. -/

/-- The el-loop: writing v el to cells base..base+J-1 (plain assignment). -/
theorem block_write_getD (J base : Nat) (v : Nat → ℚ) (c : List ℚ) (q : Nat) :
    ((List.range J).foldl (fun c el => c.set (base + el) (v el)) c).getD q 0 =
      if base ≤ q ∧ q < base + J ∧ q < c.length then v (q - base) else c.getD q 0 := by
  induction J generalizing q with
  | zero =>
    simp only [List.range_zero, List.foldl_nil]
    rw [if_neg (by omega)]
  | succ J ih =>
    rw [List.range_succ, List.foldl_append, List.foldl_cons, List.foldl_nil]
    have hlen : ((List.range J).foldl (fun c el => c.set (base + el) (v el)) c).length
        = c.length := foldl_length _ _ (fun c x => by simp) c
    rw [getD_set, hlen]
    by_cases hq : q = base + J
    · subst hq
      by_cases hl : base + J < c.length
      · rw [if_pos ⟨rfl, hl⟩, if_pos (by omega)]
        simp
      · rw [if_neg (by tauto), ih (base + J), if_neg (by omega), if_neg (by omega)]
    · rw [if_neg (by tauto), ih q]
      have h : (base ≤ q ∧ q < base + J ∧ q < c.length) ↔
          (base ≤ q ∧ q < base + (J + 1) ∧ q < c.length) := by omega
      simp only [h]

/-- The tile_row loop: rewriting the same block T times leaves only the last
iteration's values. -/
theorem block_rewrite_getD (T J base : Nat) (u : Nat → Nat → ℚ) (c : List ℚ) (q : Nat) :
    ((List.range T).foldl
        (fun c tr => (List.range J).foldl (fun c el => c.set (base + el) (u tr el)) c) c).getD q 0 =
      if base ≤ q ∧ q < base + J ∧ q < c.length ∧ 0 < T then u (T - 1) (q - base)
      else c.getD q 0 := by
  induction T generalizing q with
  | zero =>
    simp only [List.range_zero, List.foldl_nil]
    rw [if_neg (by omega)]
  | succ T ih =>
    rw [List.range_succ, List.foldl_append, List.foldl_cons, List.foldl_nil]
    have hlen : ((List.range T).foldl
        (fun c tr => (List.range J).foldl (fun c el => c.set (base + el) (u tr el)) c) c).length
        = c.length := foldl_length _ _ (fun c x => foldl_length _ _ (fun c el => by simp) c) c
    rw [block_write_getD, hlen]
    by_cases hin : base ≤ q ∧ q < base + J ∧ q < c.length
    · rw [if_pos hin, if_pos ⟨hin.1, hin.2.1, hin.2.2, by omega⟩]
      norm_num
    · rw [if_neg hin, ih q, if_neg (by tauto), if_neg (by tauto)]

/-- A run of tile steps over cells outside their common block, or beyond the
buffer, changes nothing at q. -/
theorem tiles_off_getD (L : List Nat) (J base : Nat) (u : Nat → Nat → Nat → ℚ) (c : List ℚ)
    (q : Nat) (hq : ¬ (base ≤ q ∧ q < base + J ∧ q < c.length)) :
    (L.foldl (fun c tile => (List.range 16).foldl
        (fun c tr => (List.range J).foldl
          (fun c el => c.set (base + el) (u tile tr el)) c) c) c).getD q 0 = c.getD q 0 := by
  induction L generalizing c hq with
  | nil => rfl
  | cons t L ih =>
    rw [List.foldl_cons]
    have hlen : ((List.range 16).foldl (fun c tr => (List.range J).foldl
        (fun c el => c.set (base + el) (u t tr el)) c) c).length = c.length :=
      foldl_length _ _ (fun c tr => foldl_length _ _ (fun c el => by simp) c) c
    rw [ih _ (by rw [hlen]; exact hq), block_rewrite_getD, if_neg (by tauto)]

/-- A run of tile steps ending in tile t leaves, inside the block, the values
of t's last tile_row iteration (tile_row = 15). -/
theorem tiles_last_getD (L : List Nat) (t J base : Nat) (u : Nat → Nat → Nat → ℚ) (c : List ℚ)
    (q : Nat) (hin : base ≤ q ∧ q < base + J ∧ q < c.length) :
    ((L ++ [t]).foldl (fun c tile => (List.range 16).foldl
        (fun c tr => (List.range J).foldl
          (fun c el => c.set (base + el) (u tile tr el)) c) c) c).getD q 0 = u t 15 (q - base) := by
  rw [List.foldl_append, List.foldl_cons, List.foldl_nil]
  have hlen : (L.foldl (fun c tile => (List.range 16).foldl
      (fun c tr => (List.range J).foldl
        (fun c el => c.set (base + el) (u tile tr el)) c) c) c).length = c.length :=
    foldl_length _ _
      (fun c tile => foldl_length _ _ (fun c tr => foldl_length _ _ (fun c el => by simp) c) c) c
  rw [block_rewrite_getD, hlen, if_pos ⟨hin.1, hin.2.1, hin.2.2, by omega⟩]

/-- Rows whose 16-wide stripe at column offset cb misses q leave q alone. -/
theorem rows_off_getD (M p cb : Nat) (TL : List Nat) (w : Nat → Nat → Nat → Nat → ℚ)
    (c : List ℚ) (q : Nat)
    (hq : ∀ row, row < M → ¬ (row * p + cb ≤ q ∧ q < row * p + cb + 16 ∧ q < c.length)) :
    ((List.range M).foldl (fun c row => TL.foldl (fun c tile => (List.range 16).foldl
        (fun c tr => (List.range 16).foldl
          (fun c el => c.set (row * p + cb + el) (w row tile tr el)) c) c) c) c).getD q 0
      = c.getD q 0 := by
  induction M with
  | zero => rfl
  | succ M ih =>
    rw [List.range_succ M, List.foldl_append, List.foldl_cons, List.foldl_nil]
    have hlen : ((List.range M).foldl (fun c row => TL.foldl (fun c tile =>
        (List.range 16).foldl (fun c tr => (List.range 16).foldl
          (fun c el => c.set (row * p + cb + el) (w row tile tr el)) c) c) c) c).length
        = c.length :=
      foldl_length _ _ (fun c row => foldl_length _ _ (fun c tile => foldl_length _ _
        (fun c tr => foldl_length _ _ (fun c el => by simp) c) c) c) c
    rw [tiles_off_getD TL 16 (M * p + cb) (w M) _ q (by rw [hlen]; exact hq M (by omega))]
    exact ih (fun row hr => hq row (by omega))

/-- The one row whose stripe contains q writes it, with the last tile's last
tile_row value; later rows do not touch it. -/
theorem rows_hit_getD (M p cb : Nat) (L0 : List Nat) (t0 : Nat)
    (w : Nat → Nat → Nat → Nat → ℚ) (c : List ℚ) (q row0 el0 : Nat)
    (hrow : row0 < M) (hq : q = row0 * p + cb + el0) (hel : el0 < 16)
    (hlenq : q < c.length) (hp : 16 ≤ p) :
    ((List.range M).foldl (fun c row => (L0 ++ [t0]).foldl (fun c tile =>
        (List.range 16).foldl (fun c tr => (List.range 16).foldl
          (fun c el => c.set (row * p + cb + el) (w row tile tr el)) c) c) c) c).getD q 0
      = w row0 t0 15 el0 := by
  induction M with
  | zero => exact absurd hrow (Nat.not_lt_zero row0)
  | succ M ih =>
    rw [List.range_succ M, List.foldl_append, List.foldl_cons, List.foldl_nil]
    have hlen : ((List.range M).foldl (fun c row => (L0 ++ [t0]).foldl (fun c tile =>
        (List.range 16).foldl (fun c tr => (List.range 16).foldl
          (fun c el => c.set (row * p + cb + el) (w row tile tr el)) c) c) c) c).length
        = c.length :=
      foldl_length _ _ (fun c row => foldl_length _ _ (fun c tile => foldl_length _ _
        (fun c tr => foldl_length _ _ (fun c el => by simp) c) c) c) c
    rcases Nat.lt_succ_iff_lt_or_eq.mp hrow with h | h
    · have hmul : (row0 + 1) * p ≤ M * p := Nat.mul_le_mul_right p (by omega)
      rw [Nat.succ_mul] at hmul
      rw [tiles_off_getD (L0 ++ [t0]) 16 (M * p + cb) (w M) _ q
        (by rw [hlen]; omega)]
      exact ih h
    · subst h
      rw [tiles_last_getD L0 t0 16 (row0 * p + cb) (w row0) _ q
        ⟨by omega, by omega, by rw [hlen]; exact hlenq⟩]
      congr 1
      omega

/-- Column blocks whose stripes miss q leave q alone. -/
theorem cols_off_getD (CL : List Nat) (M p : Nat) (TL : List Nat)
    (W : Nat → Nat → Nat → Nat → Nat → ℚ) (c : List ℚ) (q : Nat)
    (hq : ∀ cb, cb ∈ CL → ∀ row, row < M →
      ¬ (row * p + cb ≤ q ∧ q < row * p + cb + 16 ∧ q < c.length)) :
    (CL.foldl (fun c cb => (List.range M).foldl (fun c row => TL.foldl (fun c tile =>
        (List.range 16).foldl (fun c tr => (List.range 16).foldl
          (fun c el => c.set (row * p + cb + el) (W cb row tile tr el)) c) c) c) c) c).getD q 0
      = c.getD q 0 := by
  induction CL generalizing c with
  | nil => rfl
  | cons cb CL ih =>
    rw [List.foldl_cons]
    have hlen : ((List.range M).foldl (fun c row => TL.foldl (fun c tile =>
        (List.range 16).foldl (fun c tr => (List.range 16).foldl
          (fun c el => c.set (row * p + cb + el) (W cb row tile tr el)) c) c) c) c).length
        = c.length :=
      foldl_length _ _ (fun c row => foldl_length _ _ (fun c tile => foldl_length _ _
        (fun c tr => foldl_length _ _ (fun c el => by simp) c) c) c) c
    rw [ih _ (fun cb' hcb' row hr => by
      rw [hlen]
      exact hq cb' (List.mem_cons_of_mem cb hcb') row hr)]
    exact rows_off_getD M p cb TL (W cb) c q
      (fun row hr => hq cb (List.mem_cons_self cb CL) row hr)

/-- The column block containing q writes it (via the row containing q, the
last tile, tile_row 15); the blocks after it do not touch it. -/
theorem cols_hit_getD (CL1 CL2 : List Nat) (cb0 M p : Nat) (L0 : List Nat) (t0 : Nat)
    (W : Nat → Nat → Nat → Nat → Nat → ℚ) (c : List ℚ) (q row0 el0 : Nat)
    (hrow : row0 < M) (hq : q = row0 * p + cb0 + el0) (hel : el0 < 16)
    (hlenq : q < c.length) (hp : 16 ≤ p)
    (h2 : ∀ cb, cb ∈ CL2 → ∀ row, row < M →
      ¬ (row * p + cb ≤ q ∧ q < row * p + cb + 16 ∧ q < c.length)) :
    ((CL1 ++ cb0 :: CL2).foldl (fun c cb => (List.range M).foldl (fun c row =>
        (L0 ++ [t0]).foldl (fun c tile => (List.range 16).foldl (fun c tr =>
          (List.range 16).foldl
            (fun c el => c.set (row * p + cb + el) (W cb row tile tr el)) c) c) c) c) c).getD q 0
      = W cb0 row0 t0 15 el0 := by
  rw [show CL1 ++ cb0 :: CL2 = (CL1 ++ [cb0]) ++ CL2 by simp, List.foldl_append,
    List.foldl_append, List.foldl_cons, List.foldl_nil]
  have hlen1 : (CL1.foldl (fun c cb => (List.range M).foldl (fun c row =>
      (L0 ++ [t0]).foldl (fun c tile => (List.range 16).foldl (fun c tr =>
        (List.range 16).foldl
          (fun c el => c.set (row * p + cb + el) (W cb row tile tr el)) c) c) c) c) c).length
      = c.length :=
    foldl_length _ _ (fun c cb => foldl_length _ _ (fun c row => foldl_length _ _
      (fun c tile => foldl_length _ _ (fun c tr => foldl_length _ _
        (fun c el => by simp) c) c) c) c) c
  have hlen2 : ((List.range M).foldl (fun c row =>
      (L0 ++ [t0]).foldl (fun c tile => (List.range 16).foldl (fun c tr =>
        (List.range 16).foldl (fun c el => c.set (row * p + cb0 + el)
          (W cb0 row tile tr el)) c) c) c)
      (CL1.foldl (fun c cb => (List.range M).foldl (fun c row =>
        (L0 ++ [t0]).foldl (fun c tile => (List.range 16).foldl (fun c tr =>
          (List.range 16).foldl
            (fun c el => c.set (row * p + cb + el) (W cb row tile tr el)) c) c) c) c) c)).length
      = c.length := by
    rw [foldl_length _ _ (fun c row => foldl_length _ _ (fun c tile => foldl_length _ _
      (fun c tr => foldl_length _ _ (fun c el => by simp) c) c) c) _]
    exact hlen1
  rw [cols_off_getD CL2 M p (L0 ++ [t0]) W _ q (fun cb hcb row hr => by
    rw [hlen2]
    exact h2 cb hcb row hr)]
  exact rows_hit_getD M p cb0 L0 t0 (W cb0) _ q row0 el0 hrow hq hel
    (by rw [hlen1]; exact hlenq) hp

/-- For a length that is a whole number of 16-steps the step list is the
16-multiples below it. -/
theorem stepBy16_eq (K : Nat) : stepBy (16 * K) 16 = (List.range K).map (fun t => t * 16) := by
  unfold stepBy
  rw [show (16 * K + 16 - 1) / 16 = K by omega]

/-- Splitting an index range at one of its members. -/
theorem range_split (K t : Nat) (h : t < K) :
    List.range K = (List.range t ++ [t]) ++ (List.range (K - (t + 1))).map (fun x => t + 1 + x) := by
  have hsum := List.range_add (t + 1) (K - (t + 1))
  rw [show t + 1 + (K - (t + 1)) = K by omega] at hsum
  rw [hsum, List.range_succ]

/-- The tile list of a positive shared dimension divisible by 16 ends in the
last tile offset n-16. -/
theorem stepBy_tile_split (n : Nat) (hn : 16 ∣ n) (hn0 : 0 < n) :
    ∃ L0, stepBy n 16 = L0 ++ [n - 16] := by
  obtain ⟨K, rfl⟩ := hn
  refine ⟨(List.range (K - 1)).map (fun t => t * 16), ?_⟩
  have hK : K = (K - 1) + 1 := by omega
  conv_lhs => rw [stepBy16_eq, hK, List.range_succ]
  rw [List.map_append]
  simp only [List.map_cons, List.map_nil]
  have h16 : (K - 1) * 16 = 16 * K - 16 := by omega
  rw [h16]

/-- The column-block list splits at the block containing column j, and every
later block starts strictly beyond j and still fits inside the row. -/
theorem stepBy_col_split (p j : Nat) (hp : 16 ∣ p) (hj : j < p) :
    ∃ CL1 CL2, stepBy p 16 = CL1 ++ (j / 16 * 16) :: CL2 ∧
      ∀ cb, cb ∈ CL2 → j < cb ∧ cb + 16 ≤ p := by
  obtain ⟨P, rfl⟩ := hp
  have ht0 : j / 16 < P := by omega
  refine ⟨(List.range (j / 16)).map (fun t => t * 16),
    ((List.range (P - (j / 16 + 1))).map (fun x => j / 16 + 1 + x)).map (fun t => t * 16),
    ?_, ?_⟩
  · rw [stepBy16_eq, range_split P (j / 16) ht0, List.map_append, List.map_append]
    simp
  · intro cb hcb
    simp only [List.mem_map, List.mem_range] at hcb
    obtain ⟨x, hx, rfl⟩ := hcb
    constructor <;> omega

/-- Pointwise description of the tiled compute phase on valid shapes: every
output cell ends up holding the single product of the last entry of its row
of a with the matching entry of the last row of b — the tile_row = 15
iteration of the tile = n-16 step is the last write to the cell and it
assigns rather than accumulates, so no other contribution survives and the
initial contents of c are irrelevant. -/
theorem sgemm_tiled_compute_getD (adata bdata : List ℚ) (m n p : Nat) (c : List ℚ)
    (hn : 16 ∣ n) (hn0 : 0 < n) (hp : 16 ∣ p) (hc : c.length = m * p)
    (i j : Nat) (hi : i < m) (hj : j < p) :
    (sgemm_tiled_compute adata bdata m n p c).getD (i * p + j) 0 =
      adata.getD (i * n + (n - 1)) 0 * bdata.getD ((n - 1) * p + j) 0 := by
  obtain ⟨L0, hL0⟩ := stepBy_tile_split n hn hn0
  obtain ⟨CL1, CL2, hsplit, hCL2⟩ := stepBy_col_split p j hp hj
  have h16p : 16 ≤ p := by rcases hp with ⟨P, hP⟩; omega
  have H := cols_hit_getD CL1 CL2 (j / 16 * 16) m p L0 (n - 16)
    (fun cb row tile tr el => adata.getD (row * n + tile + tr) 0 *
      bdata.getD (tile * p + tr * p + cb + el) 0)
    c (i * p + j) i (j % 16)
    hi (by omega) (by omega) (by rw [hc]; exact index_lt hi hj) h16p
    (fun cb hcb row hr => by
      have hc2 := hCL2 cb hcb
      rcases Nat.lt_trichotomy row i with h | h | h
      · have hm2 : (row + 1) * p ≤ i * p := Nat.mul_le_mul_right p h
        rw [Nat.succ_mul] at hm2
        omega
      · subst h
        omega
      · have hm2 : (i + 1) * p ≤ row * p := Nat.mul_le_mul_right p h
        rw [Nat.succ_mul] at hm2
        omega)
  simp only [sgemm_tiled_compute, hsplit, hL0]
  refine H.trans ?_
  show adata.getD (i * n + (n - 16) + 15) 0 *
      bdata.getD ((n - 16) * p + 15 * p + j / 16 * 16 + j % 16) 0 =
    adata.getD (i * n + (n - 1)) 0 * bdata.getD ((n - 1) * p + j) 0
  have e1 : i * n + (n - 16) + 15 = i * n + (n - 1) := by
    rcases hn with ⟨N, hN⟩
    omega
  have h3 : (n - 16) * p + 15 * p = (n - 1) * p := by
    rw [← Nat.add_mul]
    congr 1
    rcases hn with ⟨N, hN⟩
    omega
  have e2 : (n - 16) * p + 15 * p + j / 16 * 16 + j % 16 = (n - 1) * p + j := by
    calc (n - 16) * p + 15 * p + j / 16 * 16 + j % 16
        = (n - 1) * p + (j / 16 * 16 + j % 16) := by rw [h3, Nat.add_assoc]
      _ = (n - 1) * p + j := by
        congr 1
        omega
  rw [e1, e2]

/-! Kernel-level helper lemmas: success on validated inputs, length
invariance, equality of the parallel and fallback variants with the tiled
kernel, and evaluations at the spec's concrete test scenarios. -/

/-- Reading a constant buffer. -/
theorem getD_replicate (N i : Nat) (x : ℚ) :
    (List.replicate N x).getD i 0 = if i < N then x else 0 := by
  rw [List.getD_eq_getElem?_getD, List.getElem?_replicate]
  by_cases h : i < N <;> simp [h]

/-- Members of a 16-step list over a 16-divisible length are 16-multiples
with a whole block of room left. -/
theorem mem_stepBy16 {x len : Nat} (h16 : 16 ∣ len) (hx : x ∈ stepBy len 16) :
    16 ∣ x ∧ x + 16 ≤ len := by
  obtain ⟨K, rfl⟩ := h16
  rw [stepBy16_eq] at hx
  simp only [List.mem_map, List.mem_range] at hx
  obtain ⟨t, ht, rfl⟩ := hx
  exact ⟨⟨t, Nat.mul_comm t 16⟩, by omega⟩

/-- The naive compute phase never resizes the buffer. -/
theorem sgemm_compute_length (adata bdata : List ℚ) (m n p : Nat) (c : List ℚ) :
    (sgemm_compute adata bdata m n p c).length = c.length :=
  foldl_length _ _
    (fun c i => foldl_length _ _ (fun c j => foldl_length _ _ (fun c k => by simp) c) c) c

/-- The tiled compute phase never resizes the buffer. -/
theorem sgemm_tiled_compute_length (adata bdata : List ℚ) (m n p : Nat) (c : List ℚ) :
    (sgemm_tiled_compute adata bdata m n p c).length = c.length := by
  simp only [sgemm_tiled_compute]
  exact foldl_length _ _ (fun c cb => foldl_length _ _ (fun c row => foldl_length _ _
    (fun c tile => foldl_length _ _ (fun c tr => foldl_length _ _
      (fun c el => by simp) c) c) c) c) c

/-- An 8-lane store never resizes the buffer. -/
theorem mm256_storeu_ps_length (c : List ℚ) (ptr : Nat) (v : Nat → ℚ) :
    (mm256_storeu_ps c ptr v).length = c.length :=
  foldl_length _ _ (fun c i => by simp) c

/-- The avx compute phase never resizes the buffer. -/
theorem sgemm_tiled_simd_avx_compute_length (adata bdata : List ℚ) (m n p : Nat) (c : List ℚ) :
    (sgemm_tiled_simd_avx_compute adata bdata m n p c).length = c.length := by
  simp only [sgemm_tiled_simd_avx_compute]
  exact foldl_length _ _ (fun c cb => foldl_length _ _ (fun c row => foldl_length _ _
    (fun c tile => foldl_length _ _
      (fun c tc => by simp [mm256_storeu_ps_length]) c) c) c) c

/-- On matching shapes and output size the naive kernel succeeds with the
triple-loop result. -/
theorem sgemm_ok (a b : F32Tensor) (c : List ℚ) (m n p : Nat)
    (ha : a.shape = [m, n]) (hb : b.shape = [n, p]) (hc : c.length = m * p) :
    sgemm a false b false c = .ok (sgemm_compute a.data b.data m n p c) := by
  simp [sgemm, ha, hb, hc]

/-- On matching shapes and output size the tiled kernel succeeds with the
blocked loop nest's result. -/
theorem sgemm_tiled_ok (a b : F32Tensor) (c : List ℚ) (m n p : Nat)
    (ha : a.shape = [m, n]) (hb : b.shape = [n, p]) (hc : c.length = m * p) :
    sgemm_tiled a false b false c = .ok (sgemm_tiled_compute a.data b.data m n p c) := by
  simp [sgemm_tiled, ha, hb, hc]

/-- The parallel kernel's sequential embedding coincides with the tiled
kernel on every input: same checks, and per-column-block tasks writing
pairwise-disjoint cells in task order. -/
theorem sgemm_tiled_par_eq (a : F32Tensor) (a_t : Bool) (b : F32Tensor) (b_t : Bool)
    (c : List ℚ) : sgemm_tiled_par a a_t b b_t c = sgemm_tiled a a_t b b_t c := rfl

/-- With the avx feature absent the vectorized kernel is the tiled kernel on
every input: same checks, and a textually identical scalar loop nest. -/
theorem sgemm_tiled_simd_false_eq (a : F32Tensor) (a_t : Bool) (b : F32Tensor) (b_t : Bool)
    (c : List ℚ) : sgemm_tiled_simd false a a_t b b_t c = sgemm_tiled a a_t b b_t c := rfl

/-- Naive kernel at scenario 1 (16×16 all-ones): output cell 0 is 16. -/
theorem oracle_ones16_entry :
    (sgemm_compute ones16.data ones16.data 16 16 16 zeros256).getD 0 0 = 16 := by
  rw [sgemm_compute_getD, if_pos ⟨by norm_num, by simp [zeros256]⟩]
  have hterm : ∀ k ∈ Finset.range 16,
      ones16.data.getD (0 / 16 * 16 + k) 0 * ones16.data.getD (k * 16 + 0 % 16) 0 = 1 := by
    intro k hk
    rw [Finset.mem_range] at hk
    simp only [ones16]
    rw [getD_replicate, getD_replicate, if_pos (by omega), if_pos (by omega)]
    norm_num
  rw [Finset.sum_congr rfl hterm, Finset.sum_const, Finset.card_range]
  simp [zeros256, getD_replicate]

/-- Tiled kernel at scenario 1 (16×16 all-ones): output cell 0 is 1, not 16. -/
theorem tiled_ones16_entry :
    (sgemm_tiled_compute ones16.data ones16.data 16 16 16 zeros256).getD 0 0 = 1 := by
  have h := sgemm_tiled_compute_getD ones16.data ones16.data 16 16 16 zeros256
    (by norm_num) (by norm_num) (by norm_num) (by simp [zeros256]) 0 0 (by norm_num) (by norm_num)
  simpa [ones16, getD_replicate] using h

/-- Tiled kernel at scenario 2 (16×32 times 32×16, all-ones): cell 0 is 1. -/
theorem tiled_two_block_entry :
    (sgemm_tiled_compute ones16x32.data ones32x16.data 16 32 16 zeros256).getD 0 0 = 1 := by
  have h := sgemm_tiled_compute_getD ones16x32.data ones32x16.data 16 32 16 zeros256
    (by norm_num) (by norm_num) (by norm_num) (by simp [zeros256]) 0 0 (by norm_num) (by norm_num)
  simpa [ones16x32, ones32x16, getD_replicate] using h

/-- The spec-predicted last-block partial product at scenario 2: cell 0 is
16 (the last block contributes sixteen 1×1 products). -/
theorem lastBlock_two_block_entry :
    (lastBlockPartialProduct ones16x32.data ones32x16.data 16 32 16).getD 0 0 = 16 := by
  unfold lastBlockPartialProduct
  rw [List.getD_eq_getElem?_getD, List.getElem?_map,
    List.getElem?_range (by norm_num : (0 : Nat) < 16 * 16)]
  show (∑ k ∈ Finset.range 16,
      ones16x32.data.getD (0 / 16 * 32 + (32 - 16 + k)) 0 *
        ones32x16.data.getD ((32 - 16 + k) * 16 + 0 % 16) 0) = 16
  have hterm : ∀ k ∈ Finset.range 16,
      ones16x32.data.getD (0 / 16 * 32 + (32 - 16 + k)) 0 *
        ones32x16.data.getD ((32 - 16 + k) * 16 + 0 % 16) 0 = 1 := by
    intro k hk
    rw [Finset.mem_range] at hk
    simp only [ones16x32, ones32x16]
    rw [getD_replicate, getD_replicate, if_pos (by omega), if_pos (by omega)]
    norm_num
  rw [Finset.sum_congr rfl hterm, Finset.sum_const, Finset.card_range]
  norm_num

/-- Fixture length fact. -/
theorem zeros256_length : zeros256.length = 16 * 16 := rfl

/-- Fixture length fact. -/
theorem ones16_data_length : ones16.data.length = 16 * 16 := rfl

/-- Fixture length fact. -/
theorem ones16x32_data_length : ones16x32.data.length = 16 * 32 := rfl

/-- Fixture length fact. -/
theorem ones32x16_data_length : ones32x16.data.length = 32 * 16 := rfl

/-- A successful naive kernel call returns a buffer of the input's length. -/
theorem sgemm_length_inv (a : F32Tensor) (a_t : Bool) (b : F32Tensor) (b_t : Bool)
    (c cf : List ℚ) (h : sgemm a a_t b b_t c = .ok cf) : cf.length = c.length := by
  unfold sgemm at h
  split_ifs at h <;> simp only [Except.ok.injEq, reduceCtorEq] at h
  rw [← h]
  exact sgemm_compute_length _ _ _ _ _ _

/-- A successful tiled kernel call returns a buffer of the input's length. -/
theorem sgemm_tiled_length_inv (a : F32Tensor) (a_t : Bool) (b : F32Tensor) (b_t : Bool)
    (c cf : List ℚ) (h : sgemm_tiled a a_t b b_t c = .ok cf) : cf.length = c.length := by
  unfold sgemm_tiled at h
  split_ifs at h <;> simp only [Except.ok.injEq, reduceCtorEq] at h
  rw [← h]
  exact sgemm_tiled_compute_length _ _ _ _ _ _

/-- A successful vectorized kernel call (either branch) returns a buffer of
the input's length. -/
theorem sgemm_tiled_simd_length_inv (avx : Bool) (a : F32Tensor) (a_t : Bool) (b : F32Tensor)
    (b_t : Bool) (c cf : List ℚ) (h : sgemm_tiled_simd avx a a_t b b_t c = .ok cf) :
    cf.length = c.length := by
  unfold sgemm_tiled_simd at h
  split_ifs at h <;> simp only [Except.ok.injEq, reduceCtorEq] at h
  · rw [← h]
    exact sgemm_tiled_simd_avx_compute_length _ _ _ _ _ _
  · rw [← h]
    exact sgemm_tiled_compute_length _ _ _ _ _ _

/-! The claims. -/

/-- C1: for every valid pair of tensors A (m×n) and B (n×p) with m, n, p
multiples of 16 and every output buffer c of length m·p, sgemm with both
transpose flags false succeeds and leaves c[i*p+j] equal to its initial
value plus the sum over k of A[i,k]×B[k,j]; in particular, starting from a
zero-initialized c it produces the exact dense matrix product. -/
theorem C1_sgemm_accumulates_exact_product (a b : F32Tensor) (c : List ℚ) (m n p : Nat)
    (ha : a.shape = [m, n]) (hb : b.shape = [n, p])
    (hadata : a.data.length = m * n) (hbdata : b.data.length = n * p)
    (hm : 16 ∣ m) (hn : 16 ∣ n) (hp : 16 ∣ p) (hc : c.length = m * p) :
    ∃ cf, sgemm a false b false c = .ok cf ∧
      (∀ i j, i < m → j < p →
        cf.getD (i * p + j) 0 =
          c.getD (i * p + j) 0 +
            ∑ k ∈ Finset.range n, a.data.getD (i * n + k) 0 * b.data.getD (k * p + j) 0) ∧
      (c = List.replicate (m * p) 0 →
        ∀ i j, i < m → j < p →
          cf.getD (i * p + j) 0 =
            ∑ k ∈ Finset.range n, a.data.getD (i * n + k) 0 * b.data.getD (k * p + j) 0) := by
  have main : ∀ i j, i < m → j < p →
      (sgemm_compute a.data b.data m n p c).getD (i * p + j) 0 =
        c.getD (i * p + j) 0 + ∑ k ∈ Finset.range n,
          a.data.getD (i * n + k) 0 * b.data.getD (k * p + j) 0 := by
    intro i j hi hj
    rw [sgemm_compute_getD, if_pos ⟨index_lt hi hj, by rw [hc]; exact index_lt hi hj⟩,
      index_div hj, index_mod hj]
  refine ⟨_, sgemm_ok a b c m n p ha hb hc, main, ?_⟩
  intro hc0 i j hi hj
  rw [main i j hi hj, hc0, getD_replicate, if_pos (index_lt hi hj), zero_add]

/-- C1 witness: scenario 1's tensors (16×16 all-ones) with the zero buffer
satisfy every hypothesis. -/
theorem C1_sgemm_accumulates_exact_product_witness :
    ∃ cf, sgemm ones16 false ones16 false zeros256 = .ok cf ∧
      (∀ i j, i < 16 → j < 16 →
        cf.getD (i * 16 + j) 0 =
          zeros256.getD (i * 16 + j) 0 +
            ∑ k ∈ Finset.range 16,
              ones16.data.getD (i * 16 + k) 0 * ones16.data.getD (k * 16 + j) 0) ∧
      (zeros256 = List.replicate (16 * 16) 0 →
        ∀ i j, i < 16 → j < 16 →
          cf.getD (i * 16 + j) 0 =
            ∑ k ∈ Finset.range 16,
              ones16.data.getD (i * 16 + k) 0 * ones16.data.getD (k * 16 + j) 0) :=
  C1_sgemm_accumulates_exact_product ones16 ones16 zeros256 16 16 16 rfl rfl
    ones16_data_length ones16_data_length (by norm_num) (by norm_num) (by norm_num)
    zeros256_length

/-- C2 evaluation at the failing input: with A and B the 16×16 all-ones
tensors and a zero-initialized buffer (shared dimension one block), the
oracle produces 16.0 in cell 0 while sgemm_tiled, sgemm_tiled_par and the
scalar branch of sgemm_tiled_simd all produce 1.0 in cell 0, so the tiled
variants do not match the oracle even at n = 16. -/
theorem C2_tiled_variants_diverge_from_oracle_at_single_block :
    ∃ co ct, sgemm ones16 false ones16 false zeros256 = .ok co ∧
      sgemm_tiled ones16 false ones16 false zeros256 = .ok ct ∧
      sgemm_tiled_par ones16 false ones16 false zeros256 = .ok ct ∧
      sgemm_tiled_simd false ones16 false ones16 false zeros256 = .ok ct ∧
      co.getD 0 0 = 16 ∧ ct.getD 0 0 = 1 ∧ ct ≠ co := by
  refine ⟨sgemm_compute ones16.data ones16.data 16 16 16 zeros256,
    sgemm_tiled_compute ones16.data ones16.data 16 16 16 zeros256,
    sgemm_ok ones16 ones16 zeros256 16 16 16 rfl rfl zeros256_length,
    sgemm_tiled_ok ones16 ones16 zeros256 16 16 16 rfl rfl zeros256_length, ?_, ?_,
    oracle_ones16_entry, tiled_ones16_entry, ?_⟩
  · rw [sgemm_tiled_par_eq]
    exact sgemm_tiled_ok ones16 ones16 zeros256 16 16 16 rfl rfl zeros256_length
  · rw [sgemm_tiled_simd_false_eq]
    exact sgemm_tiled_ok ones16 ones16 zeros256 16 16 16 rfl rfl zeros256_length
  · intro hEq
    have h1 := tiled_ones16_entry
    rw [hEq, oracle_ones16_entry] at h1
    norm_num at h1

/-- C3 counterexample: at scenario 2 (A 16×32 all-ones, B 32×16 all-ones,
zero buffer, shared dimension two blocks) the tiled kernel's output differs
from the spec-predicted last-block partial product: cell 0 is 1.0, not the
16.0 the final block's partial product would give. -/
theorem C3_counterexample_two_blocks :
    ∃ ct, sgemm_tiled ones16x32 false ones32x16 false zeros256 = .ok ct ∧
      ct.getD 0 0 = 1 ∧
      (lastBlockPartialProduct ones16x32.data ones32x16.data 16 32 16).getD 0 0 = 16 ∧
      ct ≠ lastBlockPartialProduct ones16x32.data ones32x16.data 16 32 16 := by
  refine ⟨_, sgemm_tiled_ok ones16x32 ones32x16 zeros256 16 32 16 rfl rfl zeros256_length,
    tiled_two_block_entry, lastBlock_two_block_entry, ?_⟩
  intro hEq
  have h1 := tiled_two_block_entry
  rw [hEq, lastBlock_two_block_entry] at h1
  norm_num at h1

/-- C3 amended: for every valid input whose shared dimension n is a multiple
of 16 strictly greater than 16, the output of sgemm_tiled is not the final
block's partial product but only its last scalar term: cell (i,j) holds
A[i,n-1]×B[n-1,j], because each (tile, tile_row) iteration overwrites the
cell and only the final one survives. -/
theorem C3_amended_tiled_multi_block_last_term (a b : F32Tensor) (c : List ℚ) (m n p : Nat)
    (ha : a.shape = [m, n]) (hb : b.shape = [n, p]) (hc : c.length = m * p)
    (hn : 16 ∣ n) (hngt : 16 < n) (hp : 16 ∣ p) :
    ∃ cf, sgemm_tiled a false b false c = .ok cf ∧
      ∀ i j, i < m → j < p →
        cf.getD (i * p + j) 0 =
          a.data.getD (i * n + (n - 1)) 0 * b.data.getD ((n - 1) * p + j) 0 :=
  ⟨_, sgemm_tiled_ok a b c m n p ha hb hc,
    fun i j hi hj =>
      sgemm_tiled_compute_getD a.data b.data m n p c hn (by omega) hp hc i j hi hj⟩

/-- C3 amended witness: scenario 2's two-block input satisfies every
hypothesis. -/
theorem C3_amended_tiled_multi_block_last_term_witness :
    ∃ cf, sgemm_tiled ones16x32 false ones32x16 false zeros256 = .ok cf ∧
      ∀ i j, i < 16 → j < 16 →
        cf.getD (i * 16 + j) 0 =
          ones16x32.data.getD (i * 32 + (32 - 1)) 0 *
            ones32x16.data.getD ((32 - 1) * 16 + j) 0 :=
  C3_amended_tiled_multi_block_last_term ones16x32 ones32x16 zeros256 16 32 16 rfl rfl
    zeros256_length (by norm_num) (by norm_num) (by norm_num)

/-- C4: for every valid input, sgemm_tiled succeeds and cell (i,j) of the
output holds A[i,n-1]×B[n-1,j] — the outer product of A's last column with
B's last row — whatever the prior contents of c were (the right-hand side
does not mention c): the innermost assignment overwrites the cell once per
(tile, tile_row) iteration and only the final one (tile = n-16,
tile_row = 15) survives. -/
theorem C4_tiled_output_is_last_column_outer_product (a b : F32Tensor) (c : List ℚ)
    (m n p : Nat)
    (ha : a.shape = [m, n]) (hb : b.shape = [n, p]) (hc : c.length = m * p)
    (hadata : a.data.length = m * n) (hbdata : b.data.length = n * p)
    (hm : 16 ∣ m) (hn : 16 ∣ n) (hp : 16 ∣ p) (hn0 : 0 < n) :
    ∃ cf, sgemm_tiled a false b false c = .ok cf ∧
      ∀ i j, i < m → j < p →
        cf.getD (i * p + j) 0 =
          a.data.getD (i * n + (n - 1)) 0 * b.data.getD ((n - 1) * p + j) 0 :=
  ⟨_, sgemm_tiled_ok a b c m n p ha hb hc,
    fun i j hi hj =>
      sgemm_tiled_compute_getD a.data b.data m n p c hn hn0 hp hc i j hi hj⟩

/-- C4 witness: scenario 1's single-block input satisfies every hypothesis. -/
theorem C4_tiled_output_is_last_column_outer_product_witness :
    ∃ cf, sgemm_tiled ones16 false ones16 false zeros256 = .ok cf ∧
      ∀ i j, i < 16 → j < 16 →
        cf.getD (i * 16 + j) 0 =
          ones16.data.getD (i * 16 + (16 - 1)) 0 * ones16.data.getD ((16 - 1) * 16 + j) 0 :=
  C4_tiled_output_is_last_column_outer_product ones16 ones16 zeros256 16 16 16 rfl rfl
    zeros256_length ones16_data_length ones16_data_length (by norm_num) (by norm_num)
    (by norm_num) (by norm_num)

/-- C5: on every input (validation outcomes included) the parallel tiled
kernel — the sequential embedding of its per-column-block tasks, which write
pairwise disjoint cells — produces exactly the same result as the sequential
tiled kernel, and as a pure function it is trivially deterministic across
repeated runs. -/
theorem C5_par_produces_same_output_as_tiled :
    ∀ (a : F32Tensor) (a_t : Bool) (b : F32Tensor) (b_t : Bool) (c : List ℚ),
      sgemm_tiled_par a a_t b b_t c = sgemm_tiled a a_t b b_t c :=
  fun a a_t b b_t c => sgemm_tiled_par_eq a a_t b b_t c

/-- C6: when the avx feature check fails, sgemm_tiled_simd produces, on
every input, exactly the same result as sgemm_tiled: the scalar fallback
branch is the scalar tiled algorithm. -/
theorem C6_simd_scalar_fallback_equals_tiled :
    ∀ (a : F32Tensor) (a_t : Bool) (b : F32Tensor) (b_t : Bool) (c : List ℚ),
      sgemm_tiled_simd false a a_t b b_t c = sgemm_tiled a a_t b b_t c :=
  fun a a_t b b_t c => sgemm_tiled_simd_false_eq a a_t b b_t c

/-- C7: each of the four kernels fails exactly when a transpose flag is set
(UnsupportedError), or A.shape[1] ≠ B.shape[0] (IncompatibilityError, when
the transpose check passed), or c.len() ≠ A.shape[0]×B.shape[1] (SizeError,
when the earlier checks passed); all validation precedes the compute phase,
which in this embedding is expressed by the error results carrying no
partially-written buffer — an error is decided purely by the checked
conditions. -/
theorem C7_kernels_fail_exactly_on_precondition_violations :
    ∀ (a : F32Tensor) (a_t : Bool) (b : F32Tensor) (b_t : Bool) (c : List ℚ) (avx : Bool),
      ∀ K ∈ [sgemm a a_t b b_t c, sgemm_tiled a a_t b b_t c,
          sgemm_tiled_par a a_t b b_t c, sgemm_tiled_simd avx a a_t b b_t c],
        ((∃ cf, K = .ok cf) ↔
          (a_t = false ∧ b_t = false ∧ a.shape.getD 1 0 = b.shape.getD 0 0 ∧
            a.shape.getD 0 0 * b.shape.getD 1 0 = c.length)) ∧
        (K = .error .UnsupportedError ↔ (a_t = true ∨ b_t = true)) ∧
        (K = .error .IncompatibilityError ↔
          (a_t = false ∧ b_t = false ∧ ¬ a.shape.getD 1 0 = b.shape.getD 0 0)) ∧
        (K = .error .SizeError ↔
          (a_t = false ∧ b_t = false ∧ a.shape.getD 1 0 = b.shape.getD 0 0 ∧
            ¬ a.shape.getD 0 0 * b.shape.getD 1 0 = c.length)) := by
  intro a a_t b b_t c avx K hK
  simp only [List.mem_cons, List.not_mem_nil, or_false] at hK
  rcases hK with rfl | rfl | rfl | rfl
  · unfold sgemm
    cases a_t <;> cases b_t <;>
      by_cases h1 : a.shape.getD 1 0 = b.shape.getD 0 0 <;>
      by_cases h2 : a.shape.getD 0 0 * b.shape.getD 1 0 = c.length <;>
      simp only [List.getD_eq_getElem?_getD] at h1 h2 <;>
      simp [h1, h2]
  · unfold sgemm_tiled
    cases a_t <;> cases b_t <;>
      by_cases h1 : a.shape.getD 1 0 = b.shape.getD 0 0 <;>
      by_cases h2 : a.shape.getD 0 0 * b.shape.getD 1 0 = c.length <;>
      simp only [List.getD_eq_getElem?_getD] at h1 h2 <;>
      simp [h1, h2]
  · unfold sgemm_tiled_par
    cases a_t <;> cases b_t <;>
      by_cases h1 : a.shape.getD 1 0 = b.shape.getD 0 0 <;>
      by_cases h2 : a.shape.getD 0 0 * b.shape.getD 1 0 = c.length <;>
      simp only [List.getD_eq_getElem?_getD] at h1 h2 <;>
      simp [h1, h2]
  · unfold sgemm_tiled_simd
    cases avx <;> cases a_t <;> cases b_t <;>
      by_cases h1 : a.shape.getD 1 0 = b.shape.getD 0 0 <;>
      by_cases h2 : a.shape.getD 0 0 * b.shape.getD 1 0 = c.length <;>
      simp only [List.getD_eq_getElem?_getD] at h1 h2 <;>
      simp [h1, h2]

/-- C7 witness: the validation outcome characterization instantiated at the
naive kernel on scenario 1's valid input. -/
theorem C7_kernels_fail_exactly_on_precondition_violations_witness :
    (∃ cf, sgemm ones16 false ones16 false zeros256 = .ok cf) ↔
      (false = false ∧ false = false ∧
        ones16.shape.getD 1 0 = ones16.shape.getD 0 0 ∧
        ones16.shape.getD 0 0 * ones16.shape.getD 1 0 = zeros256.length) :=
  (C7_kernels_fail_exactly_on_precondition_violations ones16 false ones16 false zeros256 false
    (sgemm ones16 false ones16 false zeros256) (List.mem_cons_self _ _)).1

/-- C8: F32Tensor::new succeeds exactly when the shape has rank 2, both
dimensions are multiples of 16, and the data length equals their product;
on success it returns the view holding exactly the given shape and data,
and on any violation it fails with ShapeError. -/
theorem C8_tensor_new_validates_shape_and_length :
    ∀ (data : List ℚ) (shape : List Nat),
      (F32Tensor.new data shape = .ok { shape := shape, data := data } ↔
        (shape.length = 2 ∧ shape.getD 0 0 % 16 = 0 ∧ shape.getD 1 0 % 16 = 0 ∧
          data.length = shape.getD 0 0 * shape.getD 1 0)) ∧
      (F32Tensor.new data shape = .error .ShapeError ↔
        ¬ (shape.length = 2 ∧ shape.getD 0 0 % 16 = 0 ∧ shape.getD 1 0 % 16 = 0 ∧
          data.length = shape.getD 0 0 * shape.getD 1 0)) ∧
      (∀ t, F32Tensor.new data shape = .ok t → t.shape = shape ∧ t.data = data) := by
  intro data shape
  by_cases h1 : shape.length = 2
  · obtain ⟨r, s, rfl⟩ := List.length_eq_two.mp h1
    unfold F32Tensor.new
    by_cases h2 : r % 16 = 0 <;> by_cases h3 : s % 16 = 0 <;>
      by_cases h4 : data.length = r * s <;>
      simp [h2, h3, h4, Nat.one_mul]
  · unfold F32Tensor.new
    simp [h1]

/-- C9: once the precondition checks have passed on tensors built by
F32Tensor::new (rank-2 shapes, data length equal to the shape product,
dimensions divisible by 16, matching inner dimension, output length m·p),
every read index into a.data and b.data and every write index into c used
by sgemm's triple loop and by the tiled loop nest shared by sgemm_tiled,
sgemm_tiled_par and the scalar branch of sgemm_tiled_simd is strictly within
the corresponding buffer's bounds, so the compute phase cannot fail. -/
theorem C9_validated_compute_indices_in_bounds (a b : F32Tensor) (c : List ℚ) (m n p : Nat)
    (ha : a.shape = [m, n]) (hb : b.shape = [n, p])
    (hadata : a.data.length = m * n) (hbdata : b.data.length = n * p)
    (hc : c.length = m * p) (hn : 16 ∣ n) (hp : 16 ∣ p) :
    (∀ i j k, i < m → j < p → k < n →
      i * p + j < c.length ∧ i * n + k < a.data.length ∧ k * p + j < b.data.length) ∧
    (∀ col_block ∈ stepBy p 16, ∀ row < m, ∀ tile ∈ stepBy n 16,
      ∀ tile_row < 16, ∀ el < 16,
        row * p + col_block + el < c.length ∧
        row * n + tile + tile_row < a.data.length ∧
        tile * p + tile_row * p + col_block + el < b.data.length) := by
  constructor
  · intro i j k hi hj hk
    rw [hc, hadata, hbdata]
    exact ⟨index_lt hi hj, index_lt hi hk, index_lt hk hj⟩
  · intro cb hcb row hrow tile htile tr htr el hel
    obtain ⟨hcb16, hcbp⟩ := mem_stepBy16 hp hcb
    obtain ⟨htile16, htilen⟩ := mem_stepBy16 hn htile
    rw [hc, hadata, hbdata]
    refine ⟨?_, ?_, ?_⟩
    · have h := index_lt hrow (show cb + el < p by omega)
      omega
    · have h := index_lt hrow (show tile + tr < n by omega)
      omega
    · have h := index_lt (show tile + tr < n by omega) (show cb + el < p by omega)
      have h2 : (tile + tr) * p = tile * p + tr * p := Nat.add_mul tile tr p
      omega

/-- C9 witness: the largest loop indices of the 16×16 case stay in bounds. -/
theorem C9_validated_compute_indices_in_bounds_witness :
    15 * 16 + 15 < zeros256.length ∧ 15 * 16 + 15 < ones16.data.length ∧
      15 * 16 + 15 < ones16.data.length :=
  (C9_validated_compute_indices_in_bounds ones16 ones16 zeros256 16 16 16 rfl rfl
    ones16_data_length ones16_data_length zeros256_length (by norm_num) (by norm_num)).1
    15 15 15 (by norm_num) (by norm_num) (by norm_num)

/-- C10: whichever kernel ran and succeeded, the returned buffer has exactly
the length of the input buffer — no kernel resizes the output; the input
tensors are immutable values of the embedding, so their shape and data are
unchanged by construction, and a failed call returns an error carrying no
buffer at all. -/
theorem C10_kernels_never_resize_output (a : F32Tensor) (a_t : Bool) (b : F32Tensor)
    (b_t : Bool) (c cf : List ℚ) (avx : Bool)
    (h : sgemm a a_t b b_t c = .ok cf ∨ sgemm_tiled a a_t b b_t c = .ok cf ∨
      sgemm_tiled_par a a_t b b_t c = .ok cf ∨ sgemm_tiled_simd avx a a_t b b_t c = .ok cf) :
    cf.length = c.length := by
  rcases h with h | h | h | h
  · exact sgemm_length_inv a a_t b b_t c cf h
  · exact sgemm_tiled_length_inv a a_t b b_t c cf h
  · rw [sgemm_tiled_par_eq] at h
    exact sgemm_tiled_length_inv a a_t b b_t c cf h
  · exact sgemm_tiled_simd_length_inv avx a a_t b b_t c cf h

/-- C10 witness: a successful 16×16 naive call keeps the buffer length. -/
theorem C10_kernels_never_resize_output_witness :
    (sgemm_compute ones16.data ones16.data 16 16 16 zeros256).length = zeros256.length :=
  C10_kernels_never_resize_output ones16 false ones16 false zeros256
    (sgemm_compute ones16.data ones16.data 16 16 16 zeros256) false
    (Or.inl (sgemm_ok ones16 ones16 zeros256 16 16 16 rfl rfl zeros256_length))

end Aml
